import Mathlib

/-!
Verification of the discrete factor table engine of the neuralpp repository.

The sources available are the unit tests
(`neuralpp/test/quick_tests/graphical_model/representation/factor/pytorch_factor_2_test.py`)
and the utility module (`neuralpp/util/util.py`).  Pure helpers defined in those
files (`get_assignment_index`, `std_err`, `matrix_from_function`) are embedded
directly from the source.  The factor engine itself
(`PyTorchTableFactor`, `PyTorchTable`, `DiscreteVariable`) is not among the
source files; those operations are modelled from the specification, as marked
in their doc comments.  Potentials are modelled as exact rationals in linear
space: the log-space representation stores the same mathematical values, and
the specification's claims under scrutiny concern the values, not the floating
point encoding.
-/

namespace Neuralpp

/-- Modelled from the spec: a discrete variable (`IntegerVariable` /
`DiscreteVariable`, implementation not in src/) is an identity with a name and
a cardinality; its domain is `{0, ..., cardinality-1}`. Distinct Lean values
stand for distinct variable identities. -/
structure Variable where
  name : String
  cardinality : Nat
deriving DecidableEq, Repr

/-- Cardinality list of an ordered variable list. -/
def cards (vs : List Variable) : List Nat :=
  vs.map fun v => v.cardinality

/-- Right-to-left accumulation of `(assignment value, cardinality)` pairs,
mirroring the loop of `get_assignment_index` in
`pytorch_factor_2_test.py` (lines 377-383): iterating `reversed(list(enumerate(variables)))`,
doing `total += assignment[i] * current_stride` and then
`current_stride *= v.cardinality`.  Returns `(current_stride, total)`. -/
def gaiAux : List (Nat × Nat) → Nat × Nat
  | [] => (1, 0)
  | p :: rest =>
    let r := gaiAux rest
    (p.2 * r.1, p.1 * r.1 + r.2)

/-- Embedded from the source (`pytorch_factor_2_test.py`, lines 377-383):
flat index of an assignment with respect to an ordered variable list. -/
def get_assignment_index (assignment : List Nat) (vs : List Variable) : Nat :=
  (gaiAux (assignment.zip (cards vs))).2

/-- Row-major strides as described by the claim: `stride[n-1] = 1` and
`stride[i] = stride[i+1] * c[i+1]` (last variable varying fastest). -/
def strides : List Nat → List Nat
  | [] => []
  | [_] => [1]
  | _ :: c1 :: rest => ((strides (c1 :: rest)).headD 1 * c1) :: strides (c1 :: rest)

/-- Modelled from the spec: `assignments()` of `PyTorchTableFactor` /
`DiscreteVariable.assignments_product` (implementation not in src/) enumerates
all assignment tuples of the given cardinalities in lexicographic order with
the last coordinate varying fastest. -/
def assignments : List Nat → List (List Nat)
  | [] => [[]]
  | c :: cs => (List.range c).flatMap fun a => (assignments cs).map fun t => a :: t

/-! ### Helper lemmas about the indexing module -/

theorem gaiAux_fst (l : List (Nat × Nat)) : (gaiAux l).1 = (l.map Prod.snd).prod := by
  induction l with
  | nil => rfl
  | cons p rest ih => simp [gaiAux, ih]

theorem strides_cons (c : Nat) (cs : List Nat) :
    strides (c :: cs) = cs.prod :: strides cs := by
  induction cs generalizing c with
  | nil => simp [strides]
  | cons c1 rest ih =>
    rw [strides, ih c1]
    simp [mul_comm]

theorem gai_eq_sum_strides (assignment csl : List Nat)
    (h : assignment.length = csl.length) :
    (gaiAux (assignment.zip csl)).2 =
      ((assignment.zip (strides csl)).map fun p => p.1 * p.2).sum := by
  induction assignment generalizing csl with
  | nil =>
    cases csl with
    | nil => rfl
    | cons c cs => simp at h
  | cons a as ih =>
    cases csl with
    | nil => simp at h
    | cons c cs =>
      simp only [List.length_cons, Nat.succ_inj] at h
      rw [strides_cons]
      show a * (gaiAux (as.zip cs)).1 + (gaiAux (as.zip cs)).2 =
        ((( a, cs.prod) :: as.zip (strides cs)).map fun p => p.1 * p.2).sum
      simp only [List.map_cons, List.sum_cons]
      rw [ih cs h, gaiAux_fst]
      have hsnd : (as.zip cs).map Prod.snd = cs :=
        List.map_snd_zip as cs (le_of_eq h.symm)
      rw [hsnd]

theorem mem_assignments_length (csl : List Nat) :
    ∀ t ∈ assignments csl, t.length = csl.length := by
  induction csl with
  | nil =>
    intro t ht
    simp [assignments] at ht
    simp [ht]
  | cons c cs ih =>
    intro t ht
    simp only [assignments, List.mem_flatMap, List.mem_map] at ht
    obtain ⟨a, _, u, hu, rfl⟩ := ht
    simp [ih u hu]

theorem flatMap_block_range (c P : Nat) :
    (List.range c).flatMap (fun a => (List.range P).map fun r => a * P + r) =
      List.range (c * P) := by
  induction c with
  | zero => simp
  | succ n ih =>
    rw [List.range_succ, List.flatMap_append, ih, List.flatMap_singleton,
      Nat.succ_mul, List.range_add]

theorem assignments_map_gai (csl : List Nat) :
    (assignments csl).map (fun t => (gaiAux (t.zip csl)).2) = List.range csl.prod := by
  induction csl with
  | nil => decide
  | cons c cs ih =>
    simp only [assignments, List.map_flatMap, List.map_map]
    have hblock : ∀ a : Nat,
        (assignments cs).map ((fun t => (gaiAux (t.zip (c :: cs))).2) ∘ fun t => a :: t) =
          (List.range cs.prod).map fun r => a * cs.prod + r := by
      intro a
      have h1 : (assignments cs).map ((fun t => (gaiAux (t.zip (c :: cs))).2) ∘ fun t => a :: t) =
          (assignments cs).map fun t => a * cs.prod + (gaiAux (t.zip cs)).2 := by
        apply List.map_congr_left
        intro t ht
        have hlen : t.length = cs.length := mem_assignments_length cs t ht
        show a * (gaiAux (t.zip cs)).1 + (gaiAux (t.zip cs)).2 =
          a * cs.prod + (gaiAux (t.zip cs)).2
        rw [gaiAux_fst]
        have hsnd : (t.zip cs).map Prod.snd = cs :=
          List.map_snd_zip t cs (le_of_eq hlen.symm)
        rw [hsnd]
      rw [h1]
      have h2 : ((assignments cs).map fun t => (gaiAux (t.zip cs)).2).map
          (fun r => a * cs.prod + r) = (List.range cs.prod).map fun r => a * cs.prod + r := by
        rw [ih]
      rw [← h2, List.map_map]
      rfl
    calc ((List.range c).flatMap fun a =>
            (assignments cs).map ((fun t => (gaiAux (t.zip (c :: cs))).2) ∘ fun t => a :: t))
        = (List.range c).flatMap fun a => (List.range cs.prod).map fun r => a * cs.prod + r := by
          exact List.flatMap_congr fun a _ => hblock a
      _ = List.range (c * cs.prod) := flatMap_block_range c cs.prod
      _ = List.range (c :: cs).prod := by rw [List.prod_cons]

/-! ### Claim theorems C1 and C2 -/

/-- C1: for every ordered list of variables with cardinalities
`[c_0,...,c_{n-1}]` and every assignment `(a_0,...,a_{n-1})` with
`0 <= a_i < c_i`, the flat index computed by `get_assignment_index` equals
`Σ a_i * stride[i]` where `stride[n-1] = 1` and
`stride[i] = stride[i+1] * c[i+1]` (row-major, last variable fastest). -/
theorem get_assignment_index_eq_sum_of_strides
    (vs : List Variable) (assignment : List Nat)
    (h : List.Forall₂ (fun a c => a < c) assignment (cards vs)) :
    get_assignment_index assignment vs =
      ((assignment.zip (strides (cards vs))).map fun p => p.1 * p.2).sum := by
  exact gai_eq_sum_strides assignment (cards vs) h.length_eq

/-- Witness for C1 at variables of cardinalities `(3,2,2)` and assignment `(2,1,1)`. -/
theorem get_assignment_index_eq_sum_of_strides_witness :
    List.Forall₂ (fun a c => a < c) [2, 1, 1]
        (cards [⟨"x", 3⟩, ⟨"y", 2⟩, ⟨"z", 2⟩]) ∧
      get_assignment_index [2, 1, 1] [⟨"x", 3⟩, ⟨"y", 2⟩, ⟨"z", 2⟩] =
        (([2, 1, 1].zip (strides (cards [⟨"x", 3⟩, ⟨"y", 2⟩, ⟨"z", 2⟩]))).map
          fun p => p.1 * p.2).sum :=
  ⟨by decide, get_assignment_index_eq_sum_of_strides _ _ (by decide)⟩

/-- C2: enumerating all assignment tuples (lexicographic, last coordinate
fastest) yields them in increasing flat-index order: mapping
`get_assignment_index` over the enumeration gives `0, 1, ..., prod-1`, so the
k-th tuple has flat index exactly k; and for cardinalities `(3,2)` the
enumeration is exactly `(0,0),(0,1),(1,0),(1,1),(2,0),(2,1)`. -/
theorem assignments_in_flat_index_order (vs : List Variable) :
    (assignments (cards vs)).map (fun t => get_assignment_index t vs) =
        List.range (cards vs).prod ∧
      assignments [3, 2] = [[0, 0], [0, 1], [1, 0], [1, 1], [2, 0], [2, 1]] := by
  constructor
  · exact assignments_map_gai (cards vs)
  · decide

/-! ### The table factor model (modelled from the spec) -/

/-- Modelled from the spec: the error taxonomy of the factor engine
(`BatchCoordinatesDoNotAgreeException` of `pytorch_table.py` and the
batch-size mismatch error, implementations not in src/). -/
inductive FactorError where
  | batchCoordinatesDoNotAgree
  | batchSizeMismatch
deriving DecidableEq, Repr

/-- Modelled from the spec: a `PyTorchTableFactor` (implementation not in
src/): an ordered variable list, a batch flag (`none` = unbatched, `some b` =
batched with `b` rows), and the dense table with one row per batch instance (a
single row when unbatched); each row lists the potential of every assignment
in enumeration order.  Potentials are exact rationals in linear space. -/
structure TableFactor where
  vars : List Variable
  batchSize : Option Nat
  rows : List (List ℚ)
deriving DecidableEq, Repr

/-- Modelled from the spec: one entry of the dict passed to `condition`: a
scalar value, the keep-free marker (`slice(None)`), or a sequence of
batch coordinates. -/
inductive CondValue where
  | fixed (w : Nat)
  | free
  | coords (ws : List Nat)
deriving DecidableEq, Repr

/-- Modelled from the spec: a sequence of length 1 is not treated as a batch
coordinate; it is treated as a scalar. -/
def normCond (p : Variable × CondValue) : Variable × CondValue :=
  match p.2 with
  | .coords [w] => (p.1, .fixed w)
  | _ => p

/-- Modelled from the spec: the lengths of all sequence-valued conditionings
of length at least 2 (the declared batch-coordinate lengths). -/
def batchLengths (m : List (Variable × CondValue)) : List Nat :=
  m.filterMap fun p =>
    match p.2 with
    | .coords ws => if 2 ≤ ws.length then some ws.length else none
    | _ => none

/-- Conditioning kind requested for a variable (defaults to keep-free when the
variable is not mentioned). -/
def condKind (m : List (Variable × CondValue)) (v : Variable) : CondValue :=
  match m.find? (fun p => decide (p.1 = v)) with
  | some p => p.2
  | none => .free

/-- The surviving free variables of a conditioning, in their original
relative order. -/
def freeVars (f : TableFactor) (m : List (Variable × CondValue)) : List Variable :=
  f.vars.filter fun v =>
    match condKind m v with
    | .free => true
    | _ => false

/-- Rebuild a full source assignment from the values of the free variables
(in order) and the conditioning, at the given batch row. -/
def fullAssignment (vs : List Variable) (m : List (Variable × CondValue))
    (fa : List Nat) (row : Nat) : List Nat :=
  match vs with
  | [] => []
  | v :: rest =>
    match condKind m v with
    | .fixed w => w :: fullAssignment rest m fa row
    | .coords ws => ws.getD row 0 :: fullAssignment rest m fa row
    | .free => fa.headD 0 :: fullAssignment rest m fa.tail row

/-- The table row a batched factor uses for batch row `i` (an unbatched
factor always uses its single row). -/
def factorRow (f : TableFactor) (i : Nat) : List ℚ :=
  match f.batchSize with
  | none => f.rows.headD []
  | some _ => f.rows.getD i []

/-- Gathered source entry of a conditioning, for the given batch row and
free-variable assignment. -/
def readEntry (f : TableFactor) (m : List (Variable × CondValue)) (i : Nat)
    (fa : List Nat) : ℚ :=
  (factorRow f i).getD (get_assignment_index (fullAssignment f.vars m fa i) f.vars) 0

/-- Result factor of a successful conditioning, for the resolved batch
state. -/
def buildCond (f : TableFactor) (m : List (Variable × CondValue))
    (resultBatch : Option Nat) : TableFactor :=
  ⟨freeVars f m, resultBatch,
    match resultBatch with
    | none => [(assignments (cards (freeVars f m))).map (readEntry f m 0)]
    | some B =>
      (List.range B).map fun i => (assignments (cards (freeVars f m))).map (readEntry f m i)⟩

/-- Modelled from the spec: `PyTorchTableFactor.condition` (implementation not
in src/).  Length-1 sequences are first turned into scalars; the lengths of
the remaining batch-coordinate sequences must all equal the factor batch size
(batched case) or agree among themselves (unbatched case, which then becomes
batched); otherwise the call fails with `BatchCoordinatesDoNotAgree`.  The
result keeps the free variables in their original relative order and gathers
the source entries per batch row. -/
def condition (f : TableFactor) (m : List (Variable × CondValue)) :
    Except FactorError TableFactor :=
  match f.batchSize with
  | some B =>
    if (batchLengths (m.map normCond)).all fun l => decide (l = B) then
      .ok (buildCond f (m.map normCond) (some B))
    else .error .batchCoordinatesDoNotAgree
  | none =>
    match batchLengths (m.map normCond) with
    | [] => .ok (buildCond f (m.map normCond) none)
    | l :: rest =>
      if rest.all fun a => decide (a = l) then .ok (buildCond f (m.map normCond) (some l))
      else .error .batchCoordinatesDoNotAgree

/-- Modelled from the spec: `PyTorchTableFactor.from_function`
(implementation not in src/), unbatched: evaluates the function over every
assignment in enumeration order. -/
def from_function (vs : List Variable) (f : List Nat → ℚ) : TableFactor :=
  ⟨vs, none, [(assignments (cards vs)).map f]⟩

/-- Modelled from the spec: `PyTorchTableFactor.from_function` with a batch
size (implementation not in src/): one row per batch index, the row index
being the leading argument of the function. -/
def from_function_batched (vs : List Variable) (b : Nat) (f : Nat → List Nat → ℚ) :
    TableFactor :=
  ⟨vs, some b, (List.range b).map fun i => (assignments (cards vs)).map (f i)⟩

/-- The test fixture variable `x = IntegerVariable("x", 3)`. -/
def xVar : Variable := ⟨"x", 3⟩

/-- The test fixture variable `y = IntegerVariable("y", 2)`. -/
def yVar : Variable := ⟨"y", 2⟩

/-- The test fixture variable `z = IntegerVariable("z", 2)`. -/
def zVar : Variable := ⟨"z", 2⟩

/-! ### Batch coordinate error handling (C4, C5) -/

theorem mem_batchLengths (m : List (Variable × CondValue)) (v : Variable)
    (ws : List Nat) (hmem : (v, CondValue.coords ws) ∈ m) (hl : 2 ≤ ws.length) :
    ws.length ∈ batchLengths (m.map normCond) := by
  have hnorm : normCond (v, CondValue.coords ws) = (v, CondValue.coords ws) := by
    match ws, hl with
    | w1 :: w2 :: rest, _ => rfl
  apply List.mem_filterMap.mpr
  refine ⟨(v, CondValue.coords ws), ?_, ?_⟩
  · rw [← hnorm]
    exact List.mem_map_of_mem normCond hmem
  · simp [hl]

/-- C4: a condition call that supplies two batch-coordinate sequences
(length at least 2) of differing lengths fails with
`BatchCoordinatesDoNotAgree`, whether the factor is batched or not; in
particular conditioning with `{x: [0,1], y: [0,1,0]}` always fails so. -/
theorem condition_batch_coordinates_do_not_agree
    (f : TableFactor) (m : List (Variable × CondValue))
    (h : ∃ v1 ws1 v2 ws2, (v1, CondValue.coords ws1) ∈ m ∧
      (v2, CondValue.coords ws2) ∈ m ∧ 2 ≤ ws1.length ∧ 2 ≤ ws2.length ∧
      ws1.length ≠ ws2.length) :
    condition f m = Except.error FactorError.batchCoordinatesDoNotAgree := by
  obtain ⟨v1, ws1, v2, ws2, hm1, hm2, hl1, hl2, hne⟩ := h
  have h1 : ws1.length ∈ batchLengths (m.map normCond) := mem_batchLengths m v1 ws1 hm1 hl1
  have h2 : ws2.length ∈ batchLengths (m.map normCond) := mem_batchLengths m v2 ws2 hm2 hl2
  cases hbs : f.batchSize with
  | some B =>
    simp only [condition, hbs]
    have hall : ((batchLengths (m.map normCond)).all fun l => decide (l = B)) = false := by
      cases hcase : (batchLengths (m.map normCond)).all fun l => decide (l = B) with
      | false => rfl
      | true =>
        exfalso
        have hforall := List.all_eq_true.mp hcase
        have e1 : ws1.length = B := of_decide_eq_true (hforall _ h1)
        have e2 : ws2.length = B := of_decide_eq_true (hforall _ h2)
        exact hne (e1.trans e2.symm)
    rw [hall]
    rfl
  | none =>
    simp only [condition, hbs]
    cases hls : batchLengths (m.map normCond) with
    | nil =>
      rw [hls] at h1
      exact absurd h1 (List.not_mem_nil _)
    | cons l rest =>
      have hall : (rest.all fun a => decide (a = l)) = false := by
        cases hcase : rest.all fun a => decide (a = l) with
        | false => rfl
        | true =>
          exfalso
          have hforall := List.all_eq_true.mp hcase
          have key : ∀ a ∈ batchLengths (m.map normCond), a = l := by
            intro a ha
            rw [hls] at ha
            rcases List.mem_cons.mp ha with heq | hmem2
            · exact heq
            · exact of_decide_eq_true (hforall _ hmem2)
          exact hne ((key _ h1).trans (key _ h2).symm)
      show (if (rest.all fun a => decide (a = l)) = true then
          Except.ok (buildCond f (List.map normCond m) (some l))
        else Except.error FactorError.batchCoordinatesDoNotAgree) =
          Except.error FactorError.batchCoordinatesDoNotAgree
      rw [hall]
      rfl

/-- Witness for C4: the test input `{x: [0,1], y: [0,1,0]}` on the unbatched
test factor raises `BatchCoordinatesDoNotAgree`. -/
theorem condition_batch_coordinates_do_not_agree_witness :
    (∃ v1 ws1 v2 ws2,
      (v1, CondValue.coords ws1) ∈
          [(xVar, CondValue.coords [0, 1]), (yVar, CondValue.coords [0, 1, 0])] ∧
        (v2, CondValue.coords ws2) ∈
          [(xVar, CondValue.coords [0, 1]), (yVar, CondValue.coords [0, 1, 0])] ∧
        2 ≤ ws1.length ∧ 2 ≤ ws2.length ∧ ws1.length ≠ ws2.length) ∧
      condition (from_function [xVar, yVar] fun _ => 1)
          [(xVar, CondValue.coords [0, 1]), (yVar, CondValue.coords [0, 1, 0])] =
        Except.error FactorError.batchCoordinatesDoNotAgree :=
  ⟨⟨xVar, [0, 1], yVar, [0, 1, 0], by decide, by decide, by decide, by decide, by decide⟩,
    condition_batch_coordinates_do_not_agree _ _
      ⟨xVar, [0, 1], yVar, [0, 1, 0], by decide, by decide, by decide, by decide, by decide⟩⟩

/-- C5: sequence-valued conditionings of length at most 1 never participate in
batch-size resolution: when every supplied sequence has length at most 1, the
condition call succeeds (never raises `BatchCoordinatesDoNotAgree`), whatever
the factor batch size (including batch size 0). -/
theorem condition_ok_of_no_batch_coordinates
    (f : TableFactor) (m : List (Variable × CondValue))
    (h : ∀ v ws, (v, CondValue.coords ws) ∈ m → ws.length ≤ 1) :
    ∃ g, condition f m = Except.ok g := by
  have hempty : batchLengths (m.map normCond) = [] := by
    apply List.filterMap_eq_nil_iff.mpr
    intro p hp
    obtain ⟨q, hq, rfl⟩ := List.mem_map.mp hp
    match q, hq with
    | (v, CondValue.fixed w), hq => rfl
    | (v, CondValue.free), hq => rfl
    | (v, CondValue.coords ws), hq =>
      have hlen : ws.length ≤ 1 := h v ws hq
      match ws, hlen with
      | [], _ => rfl
      | [w], _ => rfl
  cases hbs : f.batchSize with
  | some B =>
    refine ⟨buildCond f (m.map normCond) (some B), ?_⟩
    simp only [condition, hbs, hempty, List.all_nil, if_true]
  | none =>
    refine ⟨buildCond f (m.map normCond) none, ?_⟩
    simp only [condition, hbs, hempty]

/-- Witness for C5: length-1 coordinates `{x: [1], y: [1]}` on a factor of
batch size 0 do not raise `BatchCoordinatesDoNotAgree`. -/
theorem condition_ok_of_no_batch_coordinates_witness :
    (∀ v ws,
        (v, CondValue.coords ws) ∈ [(xVar, CondValue.coords [1]), (yVar, CondValue.coords [1])] →
          ws.length ≤ 1) ∧
      ∃ g, condition (from_function_batched [xVar, yVar] 0 fun _ _ => 1)
          [(xVar, CondValue.coords [1]), (yVar, CondValue.coords [1])] = Except.ok g := by
  have hyp : ∀ v ws,
      (v, CondValue.coords ws) ∈ [(xVar, CondValue.coords [1]), (yVar, CondValue.coords [1])] →
        ws.length ≤ 1 := by
    intro v ws hmem
    simp only [List.mem_cons, List.not_mem_nil, or_false, Prod.mk.injEq] at hmem
    rcases hmem with ⟨hv, hc⟩ | ⟨hv, hc⟩ <;>
      · injection hc with hw
        subst hw
        decide
  exact ⟨hyp, condition_ok_of_no_batch_coordinates _ _ hyp⟩

/-! ### Conditioning correctness (C3) -/

theorem getD_map_range {α : Type} (g : Nat → α) (b i : Nat) (d : α) (h : i < b) :
    ((List.range b).map g).getD i d = g i := by
  rw [List.getD_eq_getElem?_getD, List.getElem?_map, List.getElem?_range h]
  rfl

/-- The test's potential function `fixy(i, x, y) = 10^i * (x*3 + y)`
(`pytorch_factor_2_test.py`, line 152), on an assignment list `[x, y]`. -/
def fixy (i : Nat) (a : List Nat) : ℚ :=
  10 ^ i * ((a.getD 0 0 : ℚ) * 3 + (a.getD 1 0 : ℚ))

/-- C3: for the batched factor `f(i, x, y) = 10^i * (3x + y)`,
`condition({x: 0})` is the factor over `y` alone with potential `10^i * y`,
and `condition({x: 0, y: 0})` is the per-row scalar `10^i * 0`; the fixed
variables are removed and the free variables keep their relative order. -/
theorem conditioning_fixes_values_and_removes_variables :
    ∀ b : Nat,
      condition (from_function_batched [xVar, yVar] b fixy) [(xVar, CondValue.fixed 0)] =
          Except.ok (from_function_batched [yVar] b fun i a => 10 ^ i * (a.getD 0 0 : ℚ)) ∧
        condition (from_function_batched [xVar, yVar] b fixy)
            [(xVar, CondValue.fixed 0), (yVar, CondValue.fixed 0)] =
          Except.ok (from_function_batched [] b fun i _ => 10 ^ i * 0) := by
  intro b
  have hrow : ∀ i, i < b →
      factorRow (from_function_batched [xVar, yVar] b fixy) i =
        (assignments (cards [xVar, yVar])).map (fixy i) := by
    intro i hib
    show ((List.range b).map fun j => (assignments (cards [xVar, yVar])).map (fixy j)).getD i []
        = (assignments (cards [xVar, yVar])).map (fixy i)
    exact getD_map_range _ b i [] hib
  constructor
  · have hred : condition (from_function_batched [xVar, yVar] b fixy)
        [(xVar, CondValue.fixed 0)] =
        Except.ok (buildCond (from_function_batched [xVar, yVar] b fixy)
          [(xVar, CondValue.fixed 0)] (some b)) := rfl
    rw [hred]
    refine congrArg Except.ok ?_
    refine congrArg (TableFactor.mk [yVar] (some b)) ?_
    apply List.map_congr_left
    intro i hi
    have hib : i < b := List.mem_range.mp hi
    show [readEntry (from_function_batched [xVar, yVar] b fixy) [(xVar, CondValue.fixed 0)] i [0],
        readEntry (from_function_batched [xVar, yVar] b fixy) [(xVar, CondValue.fixed 0)] i [1]] =
      [10 ^ i * (([0].getD 0 0 : Nat) : ℚ), 10 ^ i * (([1].getD 0 0 : Nat) : ℚ)]
    have h0 : readEntry (from_function_batched [xVar, yVar] b fixy)
        [(xVar, CondValue.fixed 0)] i [0] = fixy i [0, 0] := by
      show (factorRow (from_function_batched [xVar, yVar] b fixy) i).getD
          (get_assignment_index [0, 0] [xVar, yVar]) 0 = fixy i [0, 0]
      rw [hrow i hib]
      rfl
    have h1 : readEntry (from_function_batched [xVar, yVar] b fixy)
        [(xVar, CondValue.fixed 0)] i [1] = fixy i [0, 1] := by
      show (factorRow (from_function_batched [xVar, yVar] b fixy) i).getD
          (get_assignment_index [0, 1] [xVar, yVar]) 0 = fixy i [0, 1]
      rw [hrow i hib]
      rfl
    rw [h0, h1]
    norm_num [fixy]
  · have hred : condition (from_function_batched [xVar, yVar] b fixy)
        [(xVar, CondValue.fixed 0), (yVar, CondValue.fixed 0)] =
        Except.ok (buildCond (from_function_batched [xVar, yVar] b fixy)
          [(xVar, CondValue.fixed 0), (yVar, CondValue.fixed 0)] (some b)) := rfl
    rw [hred]
    refine congrArg Except.ok ?_
    refine congrArg (TableFactor.mk [] (some b)) ?_
    apply List.map_congr_left
    intro i hi
    have hib : i < b := List.mem_range.mp hi
    show [readEntry (from_function_batched [xVar, yVar] b fixy)
        [(xVar, CondValue.fixed 0), (yVar, CondValue.fixed 0)] i []] = [10 ^ i * 0]
    have h0 : readEntry (from_function_batched [xVar, yVar] b fixy)
        [(xVar, CondValue.fixed 0), (yVar, CondValue.fixed 0)] i [] = fixy i [0, 0] := by
      show (factorRow (from_function_batched [xVar, yVar] b fixy) i).getD
          (get_assignment_index [0, 0] [xVar, yVar]) 0 = fixy i [0, 0]
      rw [hrow i hib]
      rfl
    rw [h0]
    norm_num [fixy]

/-! ### Multiplication (C6) -/

/-- Position of a variable in a variable list. -/
def varIndex (vs : List Variable) (v : Variable) : Nat :=
  vs.findIdx fun u => decide (u = v)

/-- Projection of an assignment of the result variables onto an operand's
variable list (shared variables read the same coordinate: index-wise junction,
no broadcast over shared axes). -/
def projAssign (rv sub : List Variable) (a : List Nat) : List Nat :=
  sub.map fun v => a.getD (varIndex rv v) 0

/-- Result variable order of a product: the first factor's variables followed
by the second factor's remaining variables in their relative order. -/
def mulVars (f1 f2 : TableFactor) : List Variable :=
  f1.vars ++ f2.vars.filter fun v => decide (v ∉ f1.vars)

/-- One entry of a factor product at batch row `i`: the product of the two
operand entries at the projections of the result assignment (batch rows align
index-for-index). -/
def mulEntry (f1 f2 : TableFactor) (rv : List Variable) (i : Nat) (a : List Nat) : ℚ :=
  (factorRow f1 i).getD (get_assignment_index (projAssign rv f1.vars a) f1.vars) 0 *
    (factorRow f2 i).getD (get_assignment_index (projAssign rv f2.vars a) f2.vars) 0

/-- Table of a factor product for the resolved batch state. -/
def buildMul (f1 f2 : TableFactor) (rv : List Variable) (bs : Option Nat) : TableFactor :=
  ⟨rv, bs,
    match bs with
    | none => [(assignments (cards rv)).map (mulEntry f1 f2 rv 0)]
    | some B => (List.range B).map fun i => (assignments (cards rv)).map (mulEntry f1 f2 rv i)⟩

/-- Modelled from the spec: factor multiplication (`PyTorchTableFactor.__mul__`,
implementation not in src/): shared variables are combined index-wise, the
non-shared axes by outer product; batch rows align index-for-index and two
batched operands must share the batch size, else `BatchSizeMismatch`. -/
def mul (f1 f2 : TableFactor) : Except FactorError TableFactor :=
  match f1.batchSize, f2.batchSize with
  | some b1, some b2 =>
    if b1 = b2 then Except.ok (buildMul f1 f2 (mulVars f1 f2) (some b1))
    else Except.error FactorError.batchSizeMismatch
  | some b1, none => Except.ok (buildMul f1 f2 (mulVars f1 f2) (some b1))
  | none, some b2 => Except.ok (buildMul f1 f2 (mulVars f1 f2) (some b2))
  | none, none => Except.ok (buildMul f1 f2 (mulVars f1 f2) none)

theorem factorRow_from_function_batched (vs : List Variable) (b : Nat)
    (g : Nat → List Nat → ℚ) (i : Nat) (hib : i < b) :
    factorRow (from_function_batched vs b g) i = (assignments (cards vs)).map (g i) := by
  show ((List.range b).map fun j => (assignments (cards vs)).map (g j)).getD i [] =
    (assignments (cards vs)).map (g i)
  exact getD_map_range _ b i [] hib

theorem mul_from_function_batched_eq (vs1 vs2 : List Variable) (b : Nat)
    (g1 g2 : Nat → List Nat → ℚ) :
    mul (from_function_batched vs1 b g1) (from_function_batched vs2 b g2) =
      Except.ok
        (buildMul (from_function_batched vs1 b g1) (from_function_batched vs2 b g2)
          (mulVars (from_function_batched vs1 b g1) (from_function_batched vs2 b g2))
          (some b)) := by
  show (if b = b then
      Except.ok
        (buildMul (from_function_batched vs1 b g1) (from_function_batched vs2 b g2)
          (mulVars (from_function_batched vs1 b g1) (from_function_batched vs2 b g2))
          (some b))
    else Except.error FactorError.batchSizeMismatch) = _
  rw [if_pos rfl]

/-- The test's `f_x_y(x, y) = (x+1)*(y+1)` on an assignment list `[x, y]`. -/
def fxy (a : List Nat) : ℚ := ((a.getD 0 0 : ℚ) + 1) * ((a.getD 1 0 : ℚ) + 1)

/-- The test's `f_y_z(y, z) = (y+1)*(z+1)*10` on an assignment list `[y, z]`. -/
def fyz (a : List Nat) : ℚ := ((a.getD 0 0 : ℚ) + 1) * ((a.getD 1 0 : ℚ) + 1) * 10

/-- C6: for `f1(x,y) = (x+1)(y+1)` and `f2(y,z) = 10(y+1)(z+1)` sharing `y`,
the product satisfies `(f1*f2)(x,y,z) = f1(x,y) * f2(y,z)` at every
assignment (shared variable combined index-wise, others by outer product),
and likewise with both operands batched and scaled per-row by `(row+1)`,
rows aligning index-for-index. -/
theorem product_is_pointwise_product :
    mul (from_function [xVar, yVar] fxy) (from_function [yVar, zVar] fyz) =
        Except.ok (from_function [xVar, yVar, zVar] fun a =>
          fxy [a.getD 0 0, a.getD 1 0] * fyz [a.getD 1 0, a.getD 2 0]) ∧
      ∀ b : Nat,
        mul (from_function_batched [xVar, yVar] b fun i a => ((i : ℚ) + 1) * fxy a)
            (from_function_batched [yVar, zVar] b fun i a => ((i : ℚ) + 1) * fyz a) =
          Except.ok (from_function_batched [xVar, yVar, zVar] b fun i a =>
            (((i : ℚ) + 1) * fxy [a.getD 0 0, a.getD 1 0]) *
              (((i : ℚ) + 1) * fyz [a.getD 1 0, a.getD 2 0])) := by
  constructor
  · rfl
  · intro b
    rw [mul_from_function_batched_eq]
    refine congrArg Except.ok ?_
    refine congrArg (TableFactor.mk [xVar, yVar, zVar] (some b)) ?_
    apply List.map_congr_left
    intro i hi
    have hib : i < b := List.mem_range.mp hi
    have h1 := factorRow_from_function_batched [xVar, yVar] b
      (fun i a => ((i : ℚ) + 1) * fxy a) i hib
    have h2 := factorRow_from_function_batched [yVar, zVar] b
      (fun i a => ((i : ℚ) + 1) * fyz a) i hib
    refine List.map_congr_left fun a ha => ?_
    have ha2 : a ∈ ([[0, 0, 0], [0, 0, 1], [0, 1, 0], [0, 1, 1], [1, 0, 0], [1, 0, 1],
        [1, 1, 0], [1, 1, 1], [2, 0, 0], [2, 0, 1], [2, 1, 0], [2, 1, 1]] :
          List (List Nat)) := ha
    simp only [List.mem_cons, List.not_mem_nil, or_false] at ha2
    rcases ha2 with rfl | rfl | rfl | rfl | rfl | rfl | rfl | rfl | rfl | rfl | rfl | rfl <;>
      · simp only [mulEntry, h1, h2]
        rfl

/-! ### Argmax (C7) -/

/-- Linear scan for the flat index of the maximum entry of a row; the first
occurrence wins, so ties resolve to the smallest flat index. -/
def argmaxFlatGo : List ℚ → Nat → Nat → ℚ → Nat
  | [], _, best, _ => best
  | q :: rest, j, best, bv =>
    if bv < q then argmaxFlatGo rest (j + 1) j q
    else argmaxFlatGo rest (j + 1) best bv

/-- Modelled from the spec: the flat index maximizing a table row, ties
resolved by the smallest flat index. -/
def argmaxFlat (row : List ℚ) : Nat :=
  argmaxFlatGo row.tail 1 0 (row.headD 0)

/-- Modelled from the spec: unravel a flat index into per-variable values
using the row-major strides of the indexing module (successive division and
remainder by each stride). -/
def unravel : List Nat → Nat → List Nat
  | [], _ => []
  | _ :: cs, k => k / cs.prod :: unravel cs (k % cs.prod)

/-- Modelled from the spec: `argmax` of `PyTorchTableFactor` (implementation
not in src/) for one batch row (the single row when unbatched): the
variable-value pairs of the flat index maximizing that row's table entries. -/
def argmaxRow (f : TableFactor) (i : Nat) : List (Variable × Nat) :=
  f.vars.zip (unravel (cards f.vars) (argmaxFlat (factorRow f i)))

theorem argmaxFlatGo_shift (c : ℚ) : ∀ (l : List ℚ) (j best : Nat) (bv : ℚ),
    argmaxFlatGo (l.map fun q => c + q) j best (c + bv) = argmaxFlatGo l j best bv := by
  intro l
  induction l with
  | nil =>
    intro j best bv
    rfl
  | cons q rest ih =>
    intro j best bv
    simp only [List.map_cons, argmaxFlatGo]
    rcases lt_or_ge bv q with h | h
    · rw [if_pos (add_lt_add_left h c), if_pos h, ih]
    · rw [if_neg (not_lt.mpr (add_le_add_left h c)), if_neg (not_lt.mpr h), ih]

theorem argmaxFlat_shift (c q0 : ℚ) (rest : List ℚ) :
    argmaxFlat ((q0 :: rest).map fun q => c + q) = argmaxFlat (q0 :: rest) := by
  show argmaxFlatGo (rest.map fun q => c + q) 1 0 (c + q0) = argmaxFlatGo rest 1 0 q0
  exact argmaxFlatGo_shift c rest 1 0 q0

/-- The test's `fixyz(i, x, y, z) = Σ v * 10^(j+1)` over `[i, x, y, z]`
(`pytorch_factor_2_test.py`, lines 399-400). -/
def fixyz (i : Nat) (a : List Nat) : ℚ :=
  (i : ℚ) * 10 ^ 1 + (a.getD 0 0 : ℚ) * 10 ^ 2 + (a.getD 1 0 : ℚ) * 10 ^ 3 +
    (a.getD 2 0 : ℚ) * 10 ^ 4

theorem fixyz_row_argmax (i : Nat) :
    argmaxFlat ((assignments (cards [xVar, yVar, zVar])).map (fixyz i)) = 11 := by
  have hassign : assignments (cards [xVar, yVar, zVar]) =
      [[0, 0, 0], [0, 0, 1], [0, 1, 0], [0, 1, 1], [1, 0, 0], [1, 0, 1], [1, 1, 0],
        [1, 1, 1], [2, 0, 0], [2, 0, 1], [2, 1, 0], [2, 1, 1]] := rfl
  have hsplit : ∀ a : List Nat, fixyz i a =
      (i : ℚ) * 10 ^ 1 + ((a.getD 0 0 : ℚ) * 10 ^ 2 + (a.getD 1 0 : ℚ) * 10 ^ 3 +
        (a.getD 2 0 : ℚ) * 10 ^ 4) := by
    intro a
    simp only [fixyz]
    ring
  have hmap : (assignments (cards [xVar, yVar, zVar])).map (fixyz i) =
      ([0, 10000, 1000, 11000, 100, 10100, 1100, 11100, 200, 10200, 1200, 11200] : List ℚ).map
        fun q => (i : ℚ) * 10 ^ 1 + q := by
    rw [hassign]
    simp only [List.map_cons, List.map_nil, hsplit]
    norm_num
  rw [hmap, show ([0, 10000, 1000, 11000, 100, 10100, 1100, 11100, 200, 10200, 1200, 11200] :
      List ℚ) = (0 : ℚ) :: [10000, 1000, 11000, 100, 10100, 1100, 11100, 200, 10200, 1200, 11200]
      from rfl, argmaxFlat_shift]
  norm_num [argmaxFlat, argmaxFlatGo]

/-- C7: for the factor over `(x,y,z)` with cardinalities `(3,2,2)` defined by
`fixyz`, argmax returns `x=2, y=1, z=1` for the unbatched factor and for
every row of a batched factor: the assignment maximizing the table entry,
unraveled with the strides of the indexing module. -/
theorem argmax_selects_max_entry :
    argmaxRow (from_function [xVar, yVar, zVar] (fixyz 0)) 0 =
        [(xVar, 2), (yVar, 1), (zVar, 1)] ∧
      ∀ b i : Nat, i < b →
        argmaxRow (from_function_batched [xVar, yVar, zVar] b fixyz) i =
          [(xVar, 2), (yVar, 1), (zVar, 1)] := by
  constructor
  · have h0 : factorRow (from_function [xVar, yVar, zVar] (fixyz 0)) 0 =
        (assignments (cards [xVar, yVar, zVar])).map (fixyz 0) := rfl
    simp only [argmaxRow, h0, fixyz_row_argmax 0]
    decide
  · intro b i hib
    have h1 := factorRow_from_function_batched [xVar, yVar, zVar] b fixyz i hib
    simp only [argmaxRow, h1, fixyz_row_argmax i]
    show [xVar, yVar, zVar].zip (unravel (cards [xVar, yVar, zVar]) 11) =
      [(xVar, 2), (yVar, 1), (zVar, 1)]
    decide

/-- Witness for C7 at batch size 4, row 2. -/
theorem argmax_selects_max_entry_witness :
    (2 : Nat) < 4 ∧
      argmaxRow (from_function_batched [xVar, yVar, zVar] 4 fixyz) 2 =
        [(xVar, 2), (yVar, 1), (zVar, 1)] :=
  ⟨by decide, (argmax_selects_max_entry).2 4 2 (by decide)⟩

/-! ### Structural equality and new_instance (C9) -/

/-- Modelled from the spec: structural equality of `PyTorchTableFactor`
(implementation not in src/): same variables in the same order, numerically
close tables (exact in the rational model) and the same batch state. -/
def factorEq (f g : TableFactor) : Bool :=
  decide (f.vars = g.vars) && decide (f.batchSize = g.batchSize) && decide (f.rows = g.rows)

/-- A factor object: a table factor together with the identity of the
instance holding it (modelling Python `is`-identity, which is distinct from
structural equality). -/
structure FactorInstance where
  addr : Nat
  factor : TableFactor
deriving DecidableEq, Repr

/-- Modelled from the spec: `new_instance` (the raw constructor of
`PyTorchTableFactor`, implementation not in src/) builds a fresh object from
the same variables and the same table; freshness is modelled by an address
different from the original's. -/
def new_instance (inst : FactorInstance) (freshAddr : Nat) : FactorInstance :=
  ⟨freshAddr, ⟨inst.factor.vars, inst.factor.batchSize, inst.factor.rows⟩⟩

/-- C9: a factor built by `from_function` and reconstructed from the same
variables and table by the raw constructor compares structurally equal while
not being the same instance. -/
theorem new_instance_equal_but_not_same
    (vs : List Variable) (g : List Nat → ℚ) (a freshAddr : Nat)
    (h : freshAddr ≠ a) :
    new_instance ⟨a, from_function vs g⟩ freshAddr ≠ ⟨a, from_function vs g⟩ ∧
      factorEq (new_instance ⟨a, from_function vs g⟩ freshAddr).factor
        (from_function vs g) = true := by
  constructor
  · intro hcontr
    exact h (congrArg FactorInstance.addr hcontr)
  · simp [factorEq, new_instance]

/-- Witness for C9 with the test's indicator function `float(x == y)` over
`(x, y)`, original address 0 and fresh address 1. -/
theorem new_instance_equal_but_not_same_witness :
    (1 : Nat) ≠ 0 ∧
      (new_instance ⟨0, from_function [xVar, yVar] fun a =>
            if a.getD 0 0 = a.getD 1 0 then 1 else 0⟩ 1 ≠
          ⟨0, from_function [xVar, yVar] fun a =>
            if a.getD 0 0 = a.getD 1 0 then 1 else 0⟩ ∧
        factorEq (new_instance ⟨0, from_function [xVar, yVar] fun a =>
              if a.getD 0 0 = a.getD 1 0 then 1 else 0⟩ 1).factor
            (from_function [xVar, yVar] fun a =>
              if a.getD 0 0 = a.getD 1 0 then 1 else 0) = true) :=
  ⟨by decide, new_instance_equal_but_not_same _ _ 0 1 (by decide)⟩

/-! ### Standard error helper (C8) -/

/-- Embedded from the source (`pytorch_factor_2_test.py`, lines 491-492):
`std_err(p, n) = p * (1 - p) / math.sqrt(n)`, with real-number semantics for
the float arithmetic. -/
noncomputable def std_err (p : ℝ) (n : Nat) : ℝ := p * (1 - p) / Real.sqrt n

/-- C8 (code bug): the claim — matching the derivation in the test's own
comments (`pytorch_factor_2_test.py`, lines 464-471) — says `std_err`
computes the theoretical standard error `sqrt(p*(1-p))/sqrt(n)` of a
Bernoulli proportion, but the source computes `p*(1-p)/sqrt(n)`: at
`p = 1/2`, `n = 4` the code yields `1/8` while the documented standard error
is `1/4`. -/
theorem std_err_differs_from_standard_error :
    std_err (1 / 2) 4 = 1 / 8 ∧
      Real.sqrt ((1 / 2) * (1 - 1 / 2)) / Real.sqrt 4 = 1 / 4 ∧
      (1 / 8 : ℝ) ≠ 1 / 4 := by
  have h4 : Real.sqrt 4 = 2 := by
    rw [show (4 : ℝ) = 2 ^ 2 by norm_num]
    exact Real.sqrt_sq (by norm_num)
  refine ⟨?_, ?_, by norm_num⟩
  · rw [std_err, show ((4 : Nat) : ℝ) = (4 : ℝ) by norm_num, h4]
    norm_num
  · rw [show ((1 / 2) * (1 - 1 / 2) : ℝ) = (1 / 2) ^ 2 by norm_num,
      Real.sqrt_sq (by norm_num), h4]
    norm_num

/-! ### matrix_from_function (C10) -/

/-- Nested-list result of `matrix_from_function`: a leaf holds one function
value, a node holds the sublists built for the first remaining dimension. -/
inductive Mat (α : Type) where
  | leaf : α → Mat α
  | node : List (Mat α) → Mat α

/-- One step of the list comprehension of `matrix_from_function` (`util.py`,
lines 184-187): iterate the indices of the first dimension, threading the
(mutated) dims list through the recursive calls; returns the built sublists
and the final dims list. -/
def mffListAux {α : Type}
    (step : List (List Nat) → List Nat → Mat α × List (List Nat)) :
    List Nat → List (List Nat) → List Nat → List (Mat α) × List (List Nat)
  | [], ds, _ => ([], ds)
  | idx :: more, ds, pre =>
    let r := step ds (pre ++ [idx])
    let rest := mffListAux step more r.2 pre
    (r.1 :: rest.1, rest.2)

/-- Embedded from the source (`util.py`, lines 177-189), with the mutated
`dims` argument made an explicit state (returned next to the result) and the
recursion depth bounded by a fuel argument; the Python recursion terminates
because each call pops one dimension before recursing and re-inserts it
before returning, so fuel equal to the length of `dims` suffices, as proved
below. -/
def mffAux {α : Type} : Nat → List (List Nat) → (List Nat → α) → List Nat →
    Mat α × List (List Nat)
  | _, [], f, pre => (.leaf (f pre), [])
  | 0, d :: ds, _, _ => (.node [], d :: ds)
  | fuel + 1, d :: ds, f, pre =>
    let z := mffListAux (fun ds2 pre2 => mffAux fuel ds2 f pre2) d ds pre
    (.node z.1, d :: z.2)

/-- Embedded from the source (`util.py`, lines 177-189):
`matrix_from_function(dims, function)`, returning the nested result next to
the final contents of the `dims` list it was passed. -/
def matrix_from_function {α : Type} (dims : List (List Nat)) (f : List Nat → α) :
    Mat α × List (List Nat) :=
  mffAux dims.length dims f []

/-- The specified result of `matrix_from_function`: the nested list whose
entry at positions `(p_0, ..., p_(k-1))` is the function applied to the index
values `(dims[0][p_0], ..., dims[k-1][p_(k-1)])` (after the accumulated
prefix); when every dimension is a range, the entry at indices
`(i_0, ..., i_(k-1))` is exactly `function(i_0, ..., i_(k-1))`. -/
def matrixSpec {α : Type} : List (List Nat) → (List Nat → α) → List Nat → Mat α
  | [], f, pre => .leaf (f pre)
  | d :: ds, f, pre => .node (d.map fun idx => matrixSpec ds f (pre ++ [idx]))

theorem mffListAux_eq {α : Type}
    (step : List (List Nat) → List Nat → Mat α × List (List Nat))
    (ds : List (List Nat)) (g : List Nat → Mat α)
    (hstep : ∀ pre2, step ds pre2 = (g pre2, ds)) :
    ∀ (idxs : List Nat) (pre : List Nat),
      mffListAux step idxs ds pre = (idxs.map fun idx => g (pre ++ [idx]), ds) := by
  intro idxs
  induction idxs with
  | nil =>
    intro pre
    rfl
  | cons idx more ih =>
    intro pre
    simp only [mffListAux, hstep (pre ++ [idx]), ih pre, List.map_cons]

theorem mffAux_eq {α : Type} (f : List Nat → α) :
    ∀ (fuel : Nat) (dims : List (List Nat)) (pre : List Nat), dims.length ≤ fuel →
      mffAux fuel dims f pre = (matrixSpec dims f pre, dims) := by
  intro fuel
  induction fuel with
  | zero =>
    intro dims pre hlen
    have hnil : dims = [] := List.length_eq_zero.mp (Nat.le_zero.mp hlen)
    subst hnil
    rfl
  | succ fuel ih =>
    intro dims pre hlen
    cases dims with
    | nil => rfl
    | cons d ds =>
      have hds : ds.length ≤ fuel := Nat.succ_le_succ_iff.mp hlen
      have hstep : ∀ pre2, mffAux fuel ds f pre2 = (matrixSpec ds f pre2, ds) :=
        fun pre2 => ih ds pre2 hds
      show (Mat.node (mffListAux (fun ds2 pre2 => mffAux fuel ds2 f pre2) d ds pre).1,
          d :: (mffListAux (fun ds2 pre2 => mffAux fuel ds2 f pre2) d ds pre).2) =
        (matrixSpec (d :: ds) f pre, d :: ds)
      rw [mffListAux_eq (fun ds2 pre2 => mffAux fuel ds2 f pre2) ds
        (fun pre2 => matrixSpec ds f pre2) hstep d pre]
      rfl

/-- C10: `matrix_from_function` leaves the `dims` list it was passed exactly
as it found it (the pop of the first dimension is matched by the re-insert
before returning), while returning the nested list whose entry at positions
`(p_0, ..., p_(k-1))` is the function applied to the corresponding index
values of each dimension — for range dimensions, the entry at indices
`(i_0, ..., i_(k-1))` is `function(i_0, ..., i_(k-1))`. -/
theorem matrix_from_function_restores_dims_and_builds_matrix
    {α : Type} (dims : List (List Nat)) (f : List Nat → α) :
    matrix_from_function dims f = (matrixSpec dims f [], dims) :=
  mffAux_eq f dims.length dims [] (le_refl _)

end Neuralpp
